import Mathlib

/-!
Verification of the flow lifecycle reconstruction engine of `process_pcap.py`.

The engine consumes already-split CSV rows (lists of field strings), decodes
the TCP flags field (`parse_flags`, Python `int(s, 0)` semantics), tracks one
lifecycle record per connection identity (`process_tcp_fields`, lines 30-86 of
the source), and exports one `(start, duration)` pair per identity.

Timestamps are embedded as exact rationals: the Python side calls `float()` on
the timestamp field, which we model as a partial parser `pyFloat` into `ℚ`
covering the finite decimal grammar (sign, integer part, optional fractional
part, optional exponent).  IEEE special literals (`inf`, `nan`), underscore
separators and surrounding whitespace are outside this rational embedding;
rounding of decimal literals is not modelled (values are exact).
-/

namespace PcapSpec

/-! ## Flag decoder (`parse_flags`, lines 9-28) -/

/-- Value of one character as a digit, accepting `0`-`9`, `a`-`f`, `A`-`F`
(the alphabet that Python's `int` accepts up to base 16). -/
def hexVal (c : Char) : Option Nat :=
  if '0' ≤ c ∧ c ≤ '9' then some (c.toNat - 48)
  else if 'a' ≤ c ∧ c ≤ 'f' then some (c.toNat - 87)
  else if 'A' ≤ c ∧ c ≤ 'F' then some (c.toNat - 55)
  else none

/-- Accumulating evaluation of a digit string in the given base; fails on a
character that is not a digit of the base. -/
def digitsValCore (base : Nat) (acc : Nat) : List Char → Option Nat
  | [] => some acc
  | c :: cs =>
    match hexVal c with
    | some d => if d < base then digitsValCore base (acc * base + d) cs else none
    | none => none

/-- Value of a non-empty digit string in the given base. -/
def digitsVal (base : Nat) (cs : List Char) : Option Nat :=
  match cs with
  | [] => none
  | _ :: _ => digitsValCore base 0 cs

/-- The unsigned part of Python's `int(s, 0)` (base auto-detection): a
`0x`/`0b`/`0o` prefix selects the base, a decimal literal must not have a
leading zero (except for a string of zeros, which denotes 0). -/
def pyIntUnsigned (cs : List Char) : Option Nat :=
  match cs with
  | c :: p :: rest =>
    if c = '0' then
      if p = 'x' ∨ p = 'X' then digitsVal 16 rest
      else if p = 'b' ∨ p = 'B' then digitsVal 2 rest
      else if p = 'o' ∨ p = 'O' then digitsVal 8 rest
      else if (p :: rest).all (fun x => x = '0') then some 0 else none
    else digitsVal 10 (c :: p :: rest)
  | cs => digitsVal 10 cs

/-- Python's `int(s, 0)` (line 16 of the source): optional sign followed by a
base-auto-detected integer literal; `none` models the `ValueError` branch. -/
def pyIntBase0 (s : String) : Option Int :=
  match s.toList with
  | c :: rest =>
    if c = '+' then (pyIntUnsigned rest).map (fun n => (n : Int))
    else if c = '-' then (pyIntUnsigned rest).map (fun n => -(n : Int))
    else (pyIntUnsigned (c :: rest)).map (fun n => (n : Int))
  | [] => none

/-- Bit `i` of an integer, with Python's two's-complement semantics for
negative numbers (floor division). -/
def intBit (n : Int) (i : Nat) : Bool :=
  decide ((n.ediv (2 ^ i)).emod 2 = 1)

/-- The set of semantic TCP flags, as four boolean markers. -/
structure FlagSet where
  syn : Bool
  ack : Bool
  fin : Bool
  rst : Bool
deriving DecidableEq, Repr

/-- `parse_flags` (lines 9-28): decode the flags field with `int(s, 0)`;
a failed conversion yields the empty set, otherwise test the fixed bits
SYN = 0x02, ACK = 0x10, FIN = 0x01, RST = 0x04. -/
def parse_flags (s : String) : FlagSet :=
  match pyIntBase0 s with
  | none => ⟨false, false, false, false⟩
  | some n => ⟨intBit n 1, intBit n 4, intBit n 0, intBit n 2⟩

/-! ## Timestamp parser (`float(time_epoch)`, line 52) -/

/-- Value of a (possibly empty) decimal digit string. -/
def digitsNat (cs : List Char) : Nat :=
  cs.foldl (fun a c => a * 10 + (c.toNat - 48)) 0

/-- Exponent part of a float literal: optional sign, then digits. -/
def pyExp (cs : List Char) : Option Int :=
  match cs with
  | '+' :: ds => if ds ≠ [] ∧ ds.all Char.isDigit then some ((digitsNat ds : Int)) else none
  | '-' :: ds => if ds ≠ [] ∧ ds.all Char.isDigit then some (-(digitsNat ds : Int)) else none
  | ds => if ds ≠ [] ∧ ds.all Char.isDigit then some ((digitsNat ds : Int)) else none

/-- Unsigned float literal: `digits [. digits] [(e|E) exp]` with at least one
mantissa digit. -/
def pyFloatCore (cs : List Char) : Option ℚ :=
  let ip := cs.takeWhile Char.isDigit
  let r1 := cs.dropWhile Char.isDigit
  let hasDot : Bool := r1.head? = some '.'
  let fp := if hasDot then r1.tail.takeWhile Char.isDigit else []
  let r2 := if hasDot then r1.tail.dropWhile Char.isDigit else r1
  if ip = [] ∧ fp = [] then none
  else
    let mant : ℚ := (digitsNat ip : ℚ) + (digitsNat fp : ℚ) / (10 : ℚ) ^ fp.length
    match r2 with
    | [] => some mant
    | 'e' :: es => (pyExp es).map (fun e => mant * (10 : ℚ) ^ e)
    | 'E' :: es => (pyExp es).map (fun e => mant * (10 : ℚ) ^ e)
    | _ => none

/-- Python's `float(s)` restricted to finite decimal literals (see the module
doc comment); `none` models the `ValueError` branch of lines 51-56. -/
def pyFloat (s : String) : Option ℚ :=
  match s.toList with
  | '+' :: cs => pyFloatCore cs
  | '-' :: cs => (pyFloatCore cs).map (fun q => -q)
  | cs => pyFloatCore cs

/-- The rational denoted by a parseable timestamp string (0 if unparseable);
used to write concrete witness values without normalising rationals. -/
def qval (s : String) : ℚ := (pyFloat s).getD 0

/-! ## Flow tracker (`process_tcp_fields`, lines 30-86) -/

/-- Connection identity: `(src_ip, dst_ip, src_port, dst_port)` (line 50). -/
structure ConnId where
  srcIp : String
  dstIp : String
  srcPort : String
  dstPort : String
deriving DecidableEq, Repr

/-- Cause of a recorded close: which of the two guarded conditionals
(lines 66-69 vs lines 72-75) performed the write.  The Python dict stores only
`start`/`end`; this ghost field makes the branch that closed the connection
observable, matching the spec's `end_cause`. -/
inductive Cause
  | RESET
  | GRACEFUL
deriving DecidableEq, Repr

/-- Per-connection lifecycle record.  Entries are only ever created at
line 60, which always assigns `start`, so `start` is mandatory here and the
`'start' not in times` guard of line 79 is dead code. -/
structure ConnRecord where
  start : ℚ
  endTime : Option ℚ
  endCause : Option Cause
deriving DecidableEq, Repr

/-- The `connections` dict, as an insertion-ordered association list (Python
dicts preserve insertion order, which fixes the export order of line 78). -/
abbrev ConnMap := List (ConnId × ConnRecord)

/-- Dictionary lookup. -/
def lookupConn : ConnMap → ConnId → Option ConnRecord
  | [], _ => none
  | (k', r) :: m, k => if k' = k then some r else lookupConn m k

/-- Dictionary store: replace in place if the key is present, append
otherwise (Python dict insertion semantics). -/
def setConn : ConnMap → ConnId → ConnRecord → ConnMap
  | [], k, r => [(k, r)]
  | (k', r') :: m, k, r => if k' = k then (k, r) :: m else (k', r') :: setConn m k r

/-- The record for a connection after one event, given the record before the
event (`none` if the identity is new): line 60 creates the record with
`start`, lines 66-69 close on RST, lines 72-75 close on FIN+ACK, each close
guarded by `end` not yet being set. -/
def eventRecord (ro : Option ConnRecord) (t : ℚ) (fl : FlagSet) : ConnRecord :=
  let r0 : ConnRecord := match ro with
    | none => ⟨t, none, none⟩
    | some r => r
  let r1 : ConnRecord :=
    if fl.rst = true ∧ r0.endTime = none
    then ⟨r0.start, some t, some Cause.RESET⟩ else r0
  if fl.fin = true ∧ fl.ack = true ∧ r1.endTime = none
  then ⟨r1.start, some t, some Cause.GRACEFUL⟩ else r1

/-- Lines 58-75: apply one decoded event to the connections dict. -/
def applyEvent (m : ConnMap) (k : ConnId) (t : ℚ) (fl : FlagSet) : ConnMap :=
  let m1 := if (lookupConn m k).isSome then m else setConn m k ⟨t, none, none⟩
  let m2 := match lookupConn m1 k with
    | some r =>
      if fl.rst = true ∧ r.endTime = none
      then setConn m1 k ⟨r.start, some t, some Cause.RESET⟩ else m1
    | none => m1
  match lookupConn m2 k with
  | some r =>
    if fl.fin = true ∧ fl.ack = true ∧ r.endTime = none
    then setConn m2 k ⟨r.start, some t, some Cause.GRACEFUL⟩ else m2
  | none => m2

/-- The uncaught exception of the loop body: six-way tuple unpacking at
line 46 raises `ValueError` when the row has more than six fields. -/
inductive PyError
  | valueError
deriving DecidableEq, Repr

/-- One iteration of the loop of lines 39-75: skip rows with fewer than six
fields (line 42), unpack exactly six fields (line 46, raising on more), decode
the flags, skip rows whose timestamp fails to parse (lines 51-56), then update
the dict. -/
def rowStep (m : ConnMap) (row : List String) : Except PyError ConnMap :=
  if row.length < 6 then .ok m
  else
    match row with
    | [te, a, b, c, d, fs] =>
      let fl := parse_flags fs
      let k : ConnId := ⟨a, b, c, d⟩
      match pyFloat te with
      | none => .ok m
      | some t => .ok (applyEvent m k t fl)
    | _ => .error PyError.valueError

/-- The whole reading loop, from a given initial dict. -/
def processRows : ConnMap → List (List String) → Except PyError ConnMap
  | m, [] => .ok m
  | m, row :: rest =>
    match rowStep m row with
    | .ok m' => processRows m' rest
    | .error e => .error e

/-- Lifecycle exporter (lines 77-86): one `(start, end - start)` pair per
tracked identity, with `end` defaulting to `start + 100`. -/
def exportConn (m : ConnMap) : List (ℚ × ℚ) :=
  m.map (fun p => (p.2.start, p.2.endTime.getD (p.2.start + 100) - p.2.start))

/-- `process_tcp_fields` on already-split CSV rows. -/
def process_tcp_fields (rows : List (List String)) : Except PyError (List (ℚ × ℚ)) :=
  (processRows [] rows).map exportConn

/-- The event carried by a row that the loop actually applies: exactly six
fields and a parseable timestamp. -/
def rowEvent (row : List String) : Option (ConnId × ℚ × FlagSet) :=
  match row with
  | [te, a, b, c, d, fs] => (pyFloat te).map (fun t => (⟨a, b, c, d⟩, t, parse_flags fs))
  | _ => none

/-- Identity and timestamp of a row with at least six fields and a parseable
timestamp (the claims' notion of a valid record). -/
def rowEventGe (row : List String) : Option (ConnId × ℚ) :=
  match row with
  | te :: a :: b :: c :: d :: _ :: _ => (pyFloat te).map (fun t => (⟨a, b, c, d⟩, t))
  | _ => none

/-- The connection identity of a row the loop applies, if any. -/
def rowConnId (row : List String) : Option ConnId :=
  (rowEvent row).map (fun e => e.1)

/-- Timestamp of the first record with at least six fields and a parseable
timestamp carrying the given identity. -/
def firstStartGe : List (List String) → ConnId → Option ℚ
  | [], _ => none
  | row :: rest, k =>
    match rowEventGe row with
    | some (k', t) => if k' = k then some t else firstStartGe rest k
    | none => firstStartGe rest k

/-- The keys of the connections dict, in insertion order. -/
def connKeys (m : ConnMap) : List ConnId := m.map Prod.fst

/-! ## Association-list algebra -/

theorem lookupConn_setConn (m : ConnMap) (k : ConnId) (r : ConnRecord) (k' : ConnId) :
    lookupConn (setConn m k r) k' = if k = k' then some r else lookupConn m k' := by
  induction m with
  | nil => by_cases hk : k = k' <;> simp [setConn, lookupConn, hk]
  | cons p m ih =>
    obtain ⟨k0, r0⟩ := p
    by_cases h0 : k0 = k
    · subst h0
      by_cases hk : k0 = k' <;> simp [setConn, lookupConn, hk]
    · by_cases hk : k0 = k'
      · subst hk
        have hne : ¬ k = k0 := fun h => h0 h.symm
        simp [setConn, lookupConn, h0, hne]
      · simp [setConn, lookupConn, h0, hk, ih]

theorem setConn_setConn (m : ConnMap) (k : ConnId) (r r' : ConnRecord) :
    setConn (setConn m k r) k r' = setConn m k r' := by
  induction m with
  | nil => simp [setConn]
  | cons p m ih =>
    obtain ⟨k0, r0⟩ := p
    by_cases h0 : k0 = k
    · subst h0; simp [setConn]
    · simp [setConn, h0, ih]

theorem setConn_self (m : ConnMap) (k : ConnId) (r : ConnRecord)
    (h : lookupConn m k = some r) : setConn m k r = m := by
  induction m with
  | nil => simp [lookupConn] at h
  | cons p m ih =>
    obtain ⟨k0, r0⟩ := p
    by_cases h0 : k0 = k
    · subst h0
      simp [lookupConn] at h
      simp [setConn, h]
    · simp [lookupConn, h0] at h
      simp [setConn, h0, ih h]

theorem mem_of_lookupConn (m : ConnMap) (k : ConnId) (r : ConnRecord)
    (h : lookupConn m k = some r) : (k, r) ∈ m := by
  induction m with
  | nil => simp [lookupConn] at h
  | cons p m ih =>
    obtain ⟨k0, r0⟩ := p
    by_cases h0 : k0 = k
    · subst h0
      simp [lookupConn] at h
      simp [h]
    · simp [lookupConn, h0] at h
      exact List.mem_cons_of_mem _ (ih h)

theorem lookupConn_eq_none_iff (m : ConnMap) (k : ConnId) :
    lookupConn m k = none ↔ k ∉ connKeys m := by
  induction m with
  | nil => simp [lookupConn, connKeys]
  | cons p m ih =>
    obtain ⟨k0, r0⟩ := p
    by_cases h0 : k0 = k
    · subst h0; simp [lookupConn, connKeys]
    · have hne : ¬ k = k0 := fun h => h0 h.symm
      simp [lookupConn, connKeys, h0, ih, hne]

theorem lookupConn_isSome_iff (m : ConnMap) (k : ConnId) :
    (lookupConn m k).isSome = true ↔ k ∈ connKeys m := by
  have h := lookupConn_eq_none_iff m k
  cases hl : lookupConn m k with
  | none =>
    simp only [hl, true_iff] at h
    simp [h]
  | some r =>
    simp only [hl] at h
    simp only [Option.isSome_some, true_iff]
    by_contra hk
    simp [hk] at h

theorem connKeys_setConn (m : ConnMap) (k : ConnId) (r : ConnRecord) :
    connKeys (setConn m k r) =
      if k ∈ connKeys m then connKeys m else connKeys m ++ [k] := by
  induction m with
  | nil => simp [setConn, connKeys]
  | cons p m ih =>
    obtain ⟨k0, r0⟩ := p
    by_cases h0 : k0 = k
    · subst h0; simp [setConn, connKeys]
    · have hne : ¬ k = k0 := fun h => h0 h.symm
      simp only [setConn, if_neg h0, connKeys, List.map_cons] at ih ⊢
      by_cases hm : k ∈ List.map Prod.fst m
      · rw [if_pos (List.mem_cons_of_mem k0 hm), ih, if_pos hm]
      · have hnc : k ∉ k0 :: List.map Prod.fst m := by simp [hne, hm]
        rw [if_neg hnc, ih, if_neg hm, List.cons_append]

theorem nodup_connKeys_setConn (m : ConnMap) (k : ConnId) (r : ConnRecord)
    (h : (connKeys m).Nodup) : (connKeys (setConn m k r)).Nodup := by
  rw [connKeys_setConn]
  by_cases hm : k ∈ connKeys m
  · simpa [hm] using h
  · simp only [hm, if_false]
    simpa [List.nodup_append] using ⟨h, hm⟩

theorem mem_connKeys_setConn (m : ConnMap) (k : ConnId) (r : ConnRecord) (k' : ConnId) :
    k' ∈ connKeys (setConn m k r) ↔ k' ∈ connKeys m ∨ k' = k := by
  rw [connKeys_setConn]
  by_cases hm : k ∈ connKeys m
  · simp only [hm, if_true]
    constructor
    · exact fun h => Or.inl h
    · rintro (h | rfl)
      · exact h
      · exact hm
  · simp [hm]

/-! ## One-event characterisation -/

theorem applyEvent_eq (m : ConnMap) (k : ConnId) (t : ℚ) (fl : FlagSet) :
    applyEvent m k t fl = setConn m k (eventRecord (lookupConn m k) t fl) := by
  obtain ⟨s, a, f, rs⟩ := fl
  cases hl : lookupConn m k with
  | none =>
    cases a <;> cases f <;> cases rs <;>
      simp [applyEvent, eventRecord, hl, lookupConn_setConn, setConn_setConn]
  | some r =>
    rcases he : r.endTime with _ | e <;>
      cases a <;> cases f <;> cases rs <;>
        simp [applyEvent, eventRecord, hl, he, lookupConn_setConn, setConn_setConn,
          setConn_self m k r hl]

theorem eventRecord_start_none (t : ℚ) (fl : FlagSet) :
    (eventRecord none t fl).start = t := by
  obtain ⟨s, a, f, rs⟩ := fl
  cases a <;> cases f <;> cases rs <;> simp [eventRecord]

theorem eventRecord_start_some (r : ConnRecord) (t : ℚ) (fl : FlagSet) :
    (eventRecord (some r) t fl).start = r.start := by
  obtain ⟨s, a, f, rs⟩ := fl
  rcases he : r.endTime with _ | e <;>
    cases a <;> cases f <;> cases rs <;> simp [eventRecord, he]

theorem eventRecord_closed (r : ConnRecord) (t : ℚ) (fl : FlagSet) (e : ℚ)
    (h : r.endTime = some e) : eventRecord (some r) t fl = r := by
  obtain ⟨s, a, f, rs⟩ := fl
  cases a <;> cases f <;> cases rs <;> simp [eventRecord, h]

theorem eventRecord_absorb (r : ConnRecord) (t : ℚ) (fl : FlagSet)
    (h : (fl.rst = true ∨ (fl.fin = true ∧ fl.ack = true)) → r.endTime.isSome = true) :
    eventRecord (some r) t fl = r := by
  rcases he : r.endTime with _ | e
  · obtain ⟨s, a, f, rs⟩ := fl
    cases a <;> cases f <;> cases rs <;> simp_all [eventRecord]
  · exact eventRecord_closed r t fl e he

theorem eventRecord_term (ro : Option ConnRecord) (t : ℚ) (fl : FlagSet)
    (h : fl.rst = true ∨ (fl.fin = true ∧ fl.ack = true)) :
    (eventRecord ro t fl).endTime.isSome = true := by
  obtain ⟨s, a, f, rs⟩ := fl
  rcases ro with _ | r
  · cases a <;> cases f <;> cases rs <;> simp_all [eventRecord]
  · rcases he : r.endTime with _ | e
    · cases a <;> cases f <;> cases rs <;> simp_all [eventRecord]
    · rw [eventRecord_closed r t _ e he, he]
      rfl

theorem eventRecord_rst_none (t : ℚ) (fl : FlagSet) (h : fl.rst = true) :
    eventRecord none t fl = ⟨t, some t, some Cause.RESET⟩ := by
  obtain ⟨s, a, f, rs⟩ := fl
  cases h
  cases a <;> cases f <;> simp [eventRecord]

theorem eventRecord_rst_some (r : ConnRecord) (t : ℚ) (fl : FlagSet)
    (h : fl.rst = true) (ho : r.endTime = none) :
    eventRecord (some r) t fl = ⟨r.start, some t, some Cause.RESET⟩ := by
  obtain ⟨s, a, f, rs⟩ := fl
  cases h
  cases a <;> cases f <;> simp [eventRecord, ho]

theorem eventRecord_nonterm_none (t : ℚ) (fl : FlagSet)
    (h : ¬ (fl.rst = true ∨ (fl.fin = true ∧ fl.ack = true))) :
    eventRecord none t fl = ⟨t, none, none⟩ := by
  obtain ⟨s, a, f, rs⟩ := fl
  cases a <;> cases f <;> cases rs <;> simp_all [eventRecord]

/-! ## Row-level characterisation -/

theorem rowStep_eq (m : ConnMap) (row : List String) :
    rowStep m row =
      if 6 < row.length then .error PyError.valueError
      else
        match rowEvent row with
        | some (k, t, fl) => .ok (applyEvent m k t fl)
        | none => .ok m := by
  rcases row with _ | ⟨te, row⟩
  · rfl
  rcases row with _ | ⟨a, row⟩
  · rfl
  rcases row with _ | ⟨b, row⟩
  · rfl
  rcases row with _ | ⟨c, row⟩
  · rfl
  rcases row with _ | ⟨d, row⟩
  · rfl
  rcases row with _ | ⟨fs, row⟩
  · rfl
  rcases row with _ | ⟨g, row⟩
  · simp only [rowStep, rowEvent]
    cases hf : pyFloat te <;> simp [hf]
  · have h1 : ¬ (te :: a :: b :: c :: d :: fs :: g :: row).length < 6 := by
      simp [List.length_cons]
    have h2 : 6 < (te :: a :: b :: c :: d :: fs :: g :: row).length := by
      simp [List.length_cons]
    simp only [rowStep, rowEvent, if_neg h1, if_pos h2]

theorem rowEvent_length (row : List String) (k : ConnId) (t : ℚ) (fl : FlagSet)
    (h : rowEvent row = some (k, t, fl)) : row.length = 6 := by
  rcases row with _ | ⟨te, row⟩
  · simp [rowEvent] at h
  rcases row with _ | ⟨a, row⟩
  · simp [rowEvent] at h
  rcases row with _ | ⟨b, row⟩
  · simp [rowEvent] at h
  rcases row with _ | ⟨c, row⟩
  · simp [rowEvent] at h
  rcases row with _ | ⟨d, row⟩
  · simp [rowEvent] at h
  rcases row with _ | ⟨fs, row⟩
  · simp [rowEvent] at h
  rcases row with _ | ⟨g, row⟩
  · rfl
  · simp [rowEvent] at h

theorem rowEventGe_eq (row : List String) (h : row.length ≤ 6) :
    rowEventGe row = (rowEvent row).map (fun e => (e.1, e.2.1)) := by
  rcases row with _ | ⟨te, row⟩
  · rfl
  rcases row with _ | ⟨a, row⟩
  · rfl
  rcases row with _ | ⟨b, row⟩
  · rfl
  rcases row with _ | ⟨c, row⟩
  · rfl
  rcases row with _ | ⟨d, row⟩
  · rfl
  rcases row with _ | ⟨fs, row⟩
  · rfl
  rcases row with _ | ⟨g, row⟩
  · simp only [rowEventGe, rowEvent]
    cases hf : pyFloat te <;> simp [hf]
  · simp [List.length_cons] at h

theorem rowStep_of_rowEvent (m : ConnMap) (row : List String) (k : ConnId) (t : ℚ)
    (fl : FlagSet) (h : rowEvent row = some (k, t, fl)) :
    rowStep m row = .ok (applyEvent m k t fl) := by
  rw [rowStep_eq, if_neg (by rw [rowEvent_length row k t fl h]; omega), h]

theorem rowStep_skip (m : ConnMap) (row : List String)
    (hlen : ¬ 6 < row.length) (h : rowEvent row = none) : rowStep m row = .ok m := by
  rw [rowStep_eq, if_neg hlen, h]

theorem rowStep_big (m : ConnMap) (row : List String) (h : 6 < row.length) :
    rowStep m row = .error PyError.valueError := by
  rw [rowStep_eq, if_pos h]

theorem rowStep_ok_cases (m m' : ConnMap) (row : List String)
    (h : rowStep m row = .ok m') :
    (rowEvent row = none ∧ m' = m)
      ∨ ∃ k t fl, rowEvent row = some (k, t, fl) ∧ m' = applyEvent m k t fl := by
  rw [rowStep_eq] at h
  by_cases hlen : 6 < row.length
  · rw [if_pos hlen] at h
    exact absurd h (by simp)
  · rw [if_neg hlen] at h
    cases he : rowEvent row with
    | none =>
      rw [he] at h
      simp at h
      exact Or.inl ⟨rfl, h.symm⟩
    | some e =>
      obtain ⟨k, t, fl⟩ := e
      rw [he] at h
      simp at h
      exact Or.inr ⟨k, t, fl, rfl, h.symm⟩

/-! ## Run-level lemmas -/

/-- Growth order on records along a run: `start` is preserved, and a record
that has closed never changes again. -/
def recLE (r r' : ConnRecord) : Prop :=
  r'.start = r.start ∧ ∀ e : ℚ, r.endTime = some e → r' = r

theorem recLE_refl (r : ConnRecord) : recLE r r := ⟨rfl, fun _ _ => rfl⟩

theorem recLE_trans (r1 r2 r3 : ConnRecord) (h12 : recLE r1 r2) (h23 : recLE r2 r3) :
    recLE r1 r3 := by
  refine ⟨h23.1.trans h12.1, fun e he => ?_⟩
  have h2 : r2 = r1 := h12.2 e he
  have h3 : r3 = r2 := h23.2 e (h2 ▸ he)
  exact h3.trans h2

theorem stepPreserve (m m' : ConnMap) (row : List String) (k : ConnId) (r : ConnRecord)
    (h : rowStep m row = .ok m') (hk : lookupConn m k = some r) :
    ∃ r', lookupConn m' k = some r' ∧ recLE r r' := by
  rcases rowStep_ok_cases m m' row h with ⟨_, rfl⟩ | ⟨ke, t, fl, _, rfl⟩
  · exact ⟨r, hk, recLE_refl r⟩
  · rw [applyEvent_eq, lookupConn_setConn]
    by_cases hkk : ke = k
    · subst hkk
      rw [if_pos rfl, hk]
      exact ⟨eventRecord (some r) t fl, rfl, eventRecord_start_some r t fl,
        fun e he => eventRecord_closed r t fl e he⟩
    · rw [if_neg hkk]
      exact ⟨r, hk, recLE_refl r⟩

theorem runPreserve (rows : List (List String)) (m m' : ConnMap) (k : ConnId)
    (r : ConnRecord) (h : processRows m rows = .ok m') (hk : lookupConn m k = some r) :
    ∃ r', lookupConn m' k = some r' ∧ recLE r r' := by
  induction rows generalizing m r with
  | nil =>
    simp only [processRows, Except.ok.injEq] at h
    exact ⟨r, h ▸ hk, recLE_refl r⟩
  | cons row rest ih =>
    simp only [processRows] at h
    cases hs : rowStep m row with
    | error e => rw [hs] at h; simp at h
    | ok m1 =>
      rw [hs] at h
      obtain ⟨r1, hk1, hle1⟩ := stepPreserve m m1 row k r hs hk
      obtain ⟨r', hk', hle'⟩ := ih m1 r1 h hk1
      exact ⟨r', hk', recLE_trans r r1 r' hle1 hle'⟩

theorem processRows_append (m : ConnMap) (xs ys : List (List String)) :
    processRows m (xs ++ ys) =
      match processRows m xs with
      | .ok m1 => processRows m1 ys
      | .error e => .error e := by
  induction xs generalizing m with
  | nil => simp [processRows]
  | cons row rest ih =>
    simp only [List.cons_append, processRows]
    cases hs : rowStep m row with
    | error e => simp
    | ok m1 => exact ih m1

theorem processRows_fixed (m : ConnMap) (rows : List (List String))
    (h : ∀ row ∈ rows, rowStep m row = .ok m) : processRows m rows = .ok m := by
  induction rows with
  | nil => rfl
  | cons row rest ih =>
    simp only [processRows, h row (List.mem_cons_self row rest)]
    exact ih (fun r hr => h r (List.mem_cons_of_mem row hr))

theorem step_absorbed (m : ConnMap) (row : List String) (hlen : ¬ 6 < row.length)
    (habs : ∀ k t fl, rowEvent row = some (k, t, fl) →
      ∃ r, lookupConn m k = some r ∧
        ((fl.rst = true ∨ (fl.fin = true ∧ fl.ack = true)) → r.endTime.isSome = true)) :
    rowStep m row = .ok m := by
  cases he : rowEvent row with
  | none => exact rowStep_skip m row hlen he
  | some e =>
    obtain ⟨k, t, fl⟩ := e
    obtain ⟨r, hk, hterm⟩ := habs k t fl he
    rw [rowStep_of_rowEvent m row k t fl he, applyEvent_eq, hk,
      eventRecord_absorb r t fl hterm, setConn_self m k r hk]

theorem absorbed_run (rows : List (List String)) (m0 m : ConnMap)
    (h : processRows m0 rows = .ok m) :
    ∀ row ∈ rows, rowStep m row = .ok m := by
  induction rows generalizing m0 with
  | nil => intro row hr; simp at hr
  | cons row rest ih =>
    intro row' hr'
    simp only [processRows] at h
    cases hs : rowStep m0 row with
    | error e => rw [hs] at h; simp at h
    | ok m1 =>
      rw [hs] at h
      rcases List.mem_cons.mp hr' with rfl | hmem
      · have hlen : ¬ 6 < row'.length := by
          intro hgt
          rw [rowStep_big m0 row' hgt] at hs
          simp at hs
        refine step_absorbed m row' hlen ?_
        intro k t fl hev
        have hs' : rowStep m0 row' = .ok (applyEvent m0 k t fl) :=
          rowStep_of_rowEvent m0 row' k t fl hev
        have hm1 : m1 = applyEvent m0 k t fl := by
          rw [hs] at hs'
          exact Except.ok.inj hs'
        have hk1 : lookupConn m1 k = some (eventRecord (lookupConn m0 k) t fl) := by
          rw [hm1, applyEvent_eq, lookupConn_setConn, if_pos rfl]
        obtain ⟨rm, hkm, hle⟩ :=
          runPreserve rest m1 m k (eventRecord (lookupConn m0 k) t fl) h hk1
        refine ⟨rm, hkm, fun hterm => ?_⟩
        have hsome := eventRecord_term (lookupConn m0 k) t fl hterm
        obtain ⟨e, he⟩ := Option.isSome_iff_exists.mp hsome
        rw [hle.2 e he, he]
        rfl
      · exact ih m1 h row' hmem

theorem runKeys (rows : List (List String)) (m0 m : ConnMap)
    (h : processRows m0 rows = .ok m) (k : ConnId) :
    k ∈ connKeys m ↔ (k ∈ connKeys m0 ∨ ∃ row ∈ rows, rowConnId row = some k) := by
  induction rows generalizing m0 with
  | nil =>
    simp only [processRows, Except.ok.injEq] at h
    subst h
    simp
  | cons row rest ih =>
    simp only [processRows] at h
    cases hs : rowStep m0 row with
    | error e => rw [hs] at h; simp at h
    | ok m1 =>
      rw [hs] at h
      have hrest := ih m1 h
      rcases rowStep_ok_cases m0 m1 row hs with ⟨hev, hm⟩ | ⟨ke, t, fl, hev, hm⟩
      · subst hm
        have hid : rowConnId row = none := by simp [rowConnId, hev]
        rw [hrest]
        constructor
        · rintro (hm0 | ⟨row', hr', hc⟩)
          · exact Or.inl hm0
          · exact Or.inr ⟨row', List.mem_cons_of_mem _ hr', hc⟩
        · rintro (hm0 | ⟨row', hr', hc⟩)
          · exact Or.inl hm0
          · rcases List.mem_cons.mp hr' with rfl | hmem
            · rw [hid] at hc
              exact absurd hc (by simp)
            · exact Or.inr ⟨row', hmem, hc⟩
      · subst hm
        have hid : rowConnId row = some ke := by simp [rowConnId, hev]
        rw [hrest, applyEvent_eq, mem_connKeys_setConn]
        constructor
        · rintro ((hm0 | hke) | ⟨row', hr', hc⟩)
          · exact Or.inl hm0
          · exact Or.inr ⟨row, List.mem_cons_self row rest, by rw [hid, hke]⟩
          · exact Or.inr ⟨row', List.mem_cons_of_mem _ hr', hc⟩
        · rintro (hm0 | ⟨row', hr', hc⟩)
          · exact Or.inl (Or.inl hm0)
          · rcases List.mem_cons.mp hr' with rfl | hmem
            · rw [hid] at hc
              have hke : ke = k := Option.some.inj hc
              exact Or.inl (Or.inr hke.symm)
            · exact Or.inr ⟨row', hmem, hc⟩

theorem runNodup (rows : List (List String)) (m0 m : ConnMap)
    (h : processRows m0 rows = .ok m) (h0 : (connKeys m0).Nodup) :
    (connKeys m).Nodup := by
  induction rows generalizing m0 with
  | nil =>
    simp only [processRows, Except.ok.injEq] at h
    exact h ▸ h0
  | cons row rest ih =>
    simp only [processRows] at h
    cases hs : rowStep m0 row with
    | error e => rw [hs] at h; simp at h
    | ok m1 =>
      rw [hs] at h
      refine ih m1 h ?_
      rcases rowStep_ok_cases m0 m1 row hs with ⟨_, rfl⟩ | ⟨ke, t, fl, _, rfl⟩
      · exact h0
      · rw [applyEvent_eq]
        exact nodup_connKeys_setConn _ _ _ h0

theorem firstStart_run (rows : List (List String)) (m0 m : ConnMap) (k : ConnId)
    (r : ConnRecord) (h : processRows m0 rows = .ok m) (hk : lookupConn m k = some r)
    (h0 : lookupConn m0 k = none) : firstStartGe rows k = some r.start := by
  induction rows generalizing m0 with
  | nil =>
    simp only [processRows, Except.ok.injEq] at h
    subst h
    rw [hk] at h0
    exact absurd h0 (by simp)
  | cons row rest ih =>
    simp only [processRows] at h
    cases hs : rowStep m0 row with
    | error e => rw [hs] at h; simp at h
    | ok m1 =>
      rw [hs] at h
      have hlen : ¬ 6 < row.length := by
        intro hgt
        rw [rowStep_big m0 row hgt] at hs
        exact absurd hs (by simp)
      have hge := rowEventGe_eq row (by omega)
      rcases rowStep_ok_cases m0 m1 row hs with ⟨hev, hm⟩ | ⟨ke, t, fl, hev, hm⟩
      · subst hm
        rw [hev] at hge
        simp only [firstStartGe, hge, Option.map_none']
        exact ih m1 h h0
      · subst hm
        rw [hev] at hge
        simp only [firstStartGe, hge, Option.map_some']
        by_cases hkk : ke = k
        · subst hkk
          rw [if_pos rfl]
          have hm1 : lookupConn (applyEvent m0 ke t fl) ke
              = some (eventRecord (lookupConn m0 ke) t fl) := by
            rw [applyEvent_eq, lookupConn_setConn, if_pos rfl]
          rw [h0] at hm1
          obtain ⟨r', hk', hle⟩ :=
            runPreserve rest (applyEvent m0 ke t fl) m ke (eventRecord none t fl) h hm1
          rw [hk'] at hk
          have hr : r' = r := Option.some.inj hk
          have hst : r.start = t := by
            rw [← hr, hle.1, eventRecord_start_none]
          rw [hst]
        · rw [if_neg hkk]
          have hm1 : lookupConn (applyEvent m0 ke t fl) k = lookupConn m0 k := by
            rw [applyEvent_eq, lookupConn_setConn, if_neg hkk]
          exact ih (applyEvent m0 ke t fl) h (hm1.trans h0)

theorem endNone_run (rows : List (List String)) (m0 m : ConnMap) (k : ConnId)
    (h : processRows m0 rows = .ok m)
    (hnt : ∀ row ∈ rows, ∀ t fl, rowEvent row = some (k, t, fl) →
      ¬ (fl.rst = true ∨ (fl.fin = true ∧ fl.ack = true)))
    (h0 : ∀ r0, lookupConn m0 k = some r0 → r0.endTime = none) :
    ∀ r, lookupConn m k = some r → r.endTime = none := by
  induction rows generalizing m0 with
  | nil =>
    simp only [processRows, Except.ok.injEq] at h
    subst h
    exact h0
  | cons row rest ih =>
    simp only [processRows] at h
    cases hs : rowStep m0 row with
    | error e => rw [hs] at h; simp at h
    | ok m1 =>
      rw [hs] at h
      have hnt' : ∀ row' ∈ rest, ∀ t fl, rowEvent row' = some (k, t, fl) →
          ¬ (fl.rst = true ∨ (fl.fin = true ∧ fl.ack = true)) :=
        fun row' hr' => hnt row' (List.mem_cons_of_mem row hr')
      rcases rowStep_ok_cases m0 m1 row hs with ⟨hev, hm⟩ | ⟨ke, t, fl, hev, hm⟩
      · subst hm
        exact ih m1 h hnt' h0
      · subst hm
        refine ih (applyEvent m0 ke t fl) h hnt' ?_
        intro r1 hk1
        rw [applyEvent_eq, lookupConn_setConn] at hk1
        by_cases hkk : ke = k
        · subst hkk
          rw [if_pos rfl] at hk1
          have hnterm := hnt row (List.mem_cons_self row rest) t fl hev
          have hr1 : r1 = eventRecord (lookupConn m0 ke) t fl := (Option.some.inj hk1).symm
          cases hl0 : lookupConn m0 ke with
          | none =>
            rw [hr1, hl0, eventRecord_nonterm_none t fl hnterm]
          | some r0 =>
            rw [hr1, hl0, eventRecord_absorb r0 t fl
              (fun hterm => absurd hterm hnterm)]
            exact h0 r0 hl0
        · rw [if_neg hkk] at hk1
          exact h0 r1 hk1

/-! ## Exporter helper -/

theorem export_mem (m : ConnMap) (k : ConnId) (r : ConnRecord)
    (hk : lookupConn m k = some r) :
    (r.start, r.endTime.getD (r.start + 100) - r.start) ∈ exportConn m :=
  List.mem_map.mpr ⟨(k, r), mem_of_lookupConn m k r hk, rfl⟩

theorem processRows_big_error (rows : List (List String))
    (h : ∃ row ∈ rows, 6 < row.length) (m : ConnMap) :
    processRows m rows = .error PyError.valueError := by
  induction rows generalizing m with
  | nil => simp at h
  | cons row rest ih =>
    by_cases hr : 6 < row.length
    · simp only [processRows, rowStep_big m row hr]
    · obtain ⟨row', hr', hlen⟩ := h
      rcases List.mem_cons.mp hr' with rfl | hmem
      · exact absurd hlen hr
      · cases hs : rowStep m row with
        | error e =>
          rw [rowStep_eq, if_neg hr] at hs
          cases he : rowEvent row with
          | none => rw [he] at hs; simp at hs
          | some e' =>
            obtain ⟨k, t, fl⟩ := e'
            rw [he] at hs
            simp at hs
        | ok m1 =>
          simp only [processRows, hs]
          exact ih ⟨row', hmem, hlen⟩ m1

/-! ## Claims -/

/-- C1: for every finite input record sequence that processes without error and
every connection identity present in the final state (hence in the exported
output), the recorded `start` equals the timestamp of the first valid record
(at least six fields, parseable timestamp) carrying that identity, regardless
of the interleaving of other identities; the exported pair for that identity
carries exactly this `start`, so `start` is never overwritten by later
events. -/
theorem C1_start_first_valid (rows : List (List String)) (m : ConnMap)
    (h : processRows [] rows = .ok m) (k : ConnId) (r : ConnRecord)
    (hk : lookupConn m k = some r) :
    firstStartGe rows k = some r.start
      ∧ (r.start, r.endTime.getD (r.start + 100) - r.start) ∈ exportConn m :=
  ⟨firstStart_run rows [] m k r h hk rfl, export_mem m k r hk⟩

/-- C2: once `end` is set for a connection identity, no subsequent event — for
that identity or any other — mutates any field of its record: the whole record
survives any further error-free processing unchanged.  In particular an RST
close at `t1` followed by a FIN+ACK at `t2` leaves `end = t1`, and further
SYNs never reopen the identity. -/
theorem C2_closed_record_immutable (m : ConnMap) (rows : List (List String))
    (m' : ConnMap) (h : processRows m rows = .ok m') (k : ConnId) (r : ConnRecord)
    (e : ℚ) (hk : lookupConn m k = some r) (he : r.endTime = some e) :
    lookupConn m' k = some r := by
  obtain ⟨r', hk', hle⟩ := runPreserve rows m m' k r h hk
  rw [hk', hle.2 e he]

/-- C3: for a still-open connection identity, a single event whose decoded
flag set contains RST as well as both FIN and ACK sets `end` to that event's
timestamp and the close is performed by the RST conditional (cause RESET,
never GRACEFUL): the RST branch runs first and the FIN+ACK branch then finds
`end` already set. -/
theorem C3_reset_wins_tie (m : ConnMap) (row : List String) (k : ConnId) (t : ℚ)
    (fl : FlagSet) (he : rowEvent row = some (k, t, fl))
    (hrst : fl.rst = true) (_hfin : fl.fin = true) (_hack : fl.ack = true)
    (hopen : ∀ r, lookupConn m k = some r → r.endTime = none) :
    rowStep m row = .ok (applyEvent m k t fl)
      ∧ lookupConn (applyEvent m k t fl) k = some (eventRecord (lookupConn m k) t fl)
      ∧ (eventRecord (lookupConn m k) t fl).endTime = some t
      ∧ (eventRecord (lookupConn m k) t fl).endCause = some Cause.RESET := by
  refine ⟨rowStep_of_rowEvent m row k t fl he, ?_, ?_, ?_⟩
  · rw [applyEvent_eq, lookupConn_setConn, if_pos rfl]
  · cases hl : lookupConn m k with
    | none => rw [eventRecord_rst_none t fl hrst]
    | some r => rw [eventRecord_rst_some r t fl hrst (hopen r hl)]
  · cases hl : lookupConn m k with
    | none => rw [eventRecord_rst_none t fl hrst]
    | some r => rw [eventRecord_rst_some r t fl hrst (hopen r hl)]

/-- C4: a connection identity that never receives an RST event nor a FIN+ACK
event keeps `end` unset, and its exported duration is exactly 100. -/
theorem C4_open_duration_100 (rows : List (List String)) (m : ConnMap)
    (h : processRows [] rows = .ok m) (k : ConnId) (r : ConnRecord)
    (hk : lookupConn m k = some r)
    (hnt : ∀ row ∈ rows, ∀ t fl, rowEvent row = some (k, t, fl) →
      ¬ (fl.rst = true ∨ (fl.fin = true ∧ fl.ack = true))) :
    r.endTime = none ∧ (r.start, (100 : ℚ)) ∈ exportConn m := by
  have hend : r.endTime = none :=
    endNone_run rows [] m k h hnt (fun r0 h0 => by simp [lookupConn] at h0) r hk
  refine ⟨hend, ?_⟩
  have hmem := export_mem m k r hk
  rw [hend] at hmem
  simpa using hmem

/-- C6: a malformed record — fewer than six fields, or exactly six fields with
a timestamp that fails to parse (such as the literal text "bad") — is
discarded with no state change: no exception, no new lifecycle record, and
processing continues from the same dict. -/
theorem C6_malformed_skipped (m : ConnMap) (row : List String)
    (h : row.length < 6
      ∨ ∃ te a b c d fs, row = [te, a, b, c, d, fs] ∧ pyFloat te = none) :
    rowStep m row = .ok m := by
  rcases h with hlen | ⟨te, a, b, c, d, fs, rfl, hf⟩
  · refine rowStep_skip m row (by omega) ?_
    cases he : rowEvent row with
    | none => rfl
    | some e =>
      obtain ⟨k, t, fl⟩ := e
      have := rowEvent_length row k t fl he
      omega
  · refine rowStep_skip m _ (by simp) ?_
    simp [rowEvent, hf]

/-- C7: processing any record sequence concatenated with itself yields exactly
the same final state and the same exported intervals as processing it once:
re-emitting identical events never changes a previously set start, end, or
end cause (first-write-wins monotonicity). -/
theorem C7_reprocess_idempotent (rows : List (List String)) :
    processRows [] (rows ++ rows) = processRows [] rows
      ∧ process_tcp_fields (rows ++ rows) = process_tcp_fields rows := by
  have hmain : processRows [] (rows ++ rows) = processRows [] rows := by
    rw [processRows_append]
    cases h : processRows [] rows with
    | error e => rfl
    | ok m => exact processRows_fixed m rows (absorbed_run rows [] m h)
  refine ⟨hmain, ?_⟩
  unfold process_tcp_fields
  rw [hmain]

/-- C8: the exporter emits exactly one `(start, duration)` pair per distinct
connection identity for which at least one valid record was processed (the
key list is duplicate-free and matches the identities of the valid records);
for every identity whose `end` is set the emitted duration is `end - start`;
and every tracked record is emitted as-is, so no pair is dropped for a zero
or negative duration. -/
theorem C8_export_complete (rows : List (List String)) (m : ConnMap)
    (h : processRows [] rows = .ok m) :
    (connKeys m).Nodup
      ∧ (∀ k, k ∈ connKeys m ↔ ∃ row ∈ rows, rowConnId row = some k)
      ∧ (exportConn m).length = m.length
      ∧ (∀ k r e, lookupConn m k = some r → r.endTime = some e →
          (r.start, e - r.start) ∈ exportConn m)
      ∧ (∀ p ∈ m, (p.2.start, p.2.endTime.getD (p.2.start + 100) - p.2.start)
          ∈ exportConn m) := by
  refine ⟨runNodup rows [] m h (by simp [connKeys]), ?_, ?_, ?_, ?_⟩
  · intro k
    rw [runKeys rows [] m h k]
    simp [connKeys]
  · simp [exportConn]
  · intro k r e hk he
    have hmem := export_mem m k r hk
    rw [he] at hmem
    simpa using hmem
  · intro p hp
    exact List.mem_map.mpr ⟨p, hp, rfl⟩

/-- C9: any input containing a record with more than six fields makes the
processing pass abort with an uncaught `ValueError` from the six-way tuple
unpacking — the record is not skipped, and no output is produced. -/
theorem C9_overlong_row_raises (rows : List (List String))
    (h : ∃ row ∈ rows, 6 < row.length) :
    (∀ m, processRows m rows = .error PyError.valueError)
      ∧ process_tcp_fields rows = .error PyError.valueError := by
  refine ⟨fun m => processRows_big_error rows h m, ?_⟩
  unfold process_tcp_fields
  rw [processRows_big_error rows h []]
  rfl

/-! ## Witnesses for the tracker claims -/

theorem C1_start_first_valid_witness :
    firstStartGe [["5", "h1", "h2", "80", "443", "0x2"]] ⟨"h1", "h2", "80", "443"⟩
        = some (qval "5")
      ∧ (qval "5", qval "5" + 100 - qval "5")
        ∈ exportConn [(⟨"h1", "h2", "80", "443"⟩, ⟨qval "5", none, none⟩)] :=
  C1_start_first_valid [["5", "h1", "h2", "80", "443", "0x2"]]
    [(⟨"h1", "h2", "80", "443"⟩, ⟨qval "5", none, none⟩)] rfl
    ⟨"h1", "h2", "80", "443"⟩ ⟨qval "5", none, none⟩ rfl

theorem C2_closed_record_immutable_witness :
    lookupConn [(⟨"h1", "h2", "80", "443"⟩, ⟨qval "5", some (qval "7"), some Cause.RESET⟩)]
        ⟨"h1", "h2", "80", "443"⟩
      = some ⟨qval "5", some (qval "7"), some Cause.RESET⟩ :=
  C2_closed_record_immutable
    [(⟨"h1", "h2", "80", "443"⟩, ⟨qval "5", some (qval "7"), some Cause.RESET⟩)]
    [["9", "h1", "h2", "80", "443", "0x11"]]
    [(⟨"h1", "h2", "80", "443"⟩, ⟨qval "5", some (qval "7"), some Cause.RESET⟩)]
    rfl ⟨"h1", "h2", "80", "443"⟩ ⟨qval "5", some (qval "7"), some Cause.RESET⟩
    (qval "7") rfl rfl

theorem C3_reset_wins_tie_witness :
    rowStep [] ["3", "h1", "h2", "80", "443", "0x15"]
        = .ok (applyEvent [] ⟨"h1", "h2", "80", "443"⟩ (qval "3") (parse_flags "0x15"))
      ∧ lookupConn (applyEvent [] ⟨"h1", "h2", "80", "443"⟩ (qval "3") (parse_flags "0x15"))
          ⟨"h1", "h2", "80", "443"⟩
        = some (eventRecord (lookupConn [] ⟨"h1", "h2", "80", "443"⟩) (qval "3")
            (parse_flags "0x15"))
      ∧ (eventRecord (lookupConn [] ⟨"h1", "h2", "80", "443"⟩) (qval "3")
          (parse_flags "0x15")).endTime = some (qval "3")
      ∧ (eventRecord (lookupConn [] ⟨"h1", "h2", "80", "443"⟩) (qval "3")
          (parse_flags "0x15")).endCause = some Cause.RESET :=
  C3_reset_wins_tie [] ["3", "h1", "h2", "80", "443", "0x15"]
    ⟨"h1", "h2", "80", "443"⟩ (qval "3") (parse_flags "0x15") rfl rfl rfl rfl
    (fun _r hr => Option.noConfusion hr)

theorem C4_open_duration_100_witness :
    (⟨qval "5", none, none⟩ : ConnRecord).endTime = none
      ∧ (qval "5", (100 : ℚ))
        ∈ exportConn [(⟨"h1", "h2", "80", "443"⟩, ⟨qval "5", none, none⟩)] :=
  C4_open_duration_100 [["5", "h1", "h2", "80", "443", "0x2"]]
    [(⟨"h1", "h2", "80", "443"⟩, ⟨qval "5", none, none⟩)] rfl
    ⟨"h1", "h2", "80", "443"⟩ ⟨qval "5", none, none⟩ rfl
    (by
      intro row hr t fl hev
      rw [List.mem_singleton] at hr
      subst hr
      have h2 : ((⟨"h1", "h2", "80", "443"⟩ : ConnId), qval "5", parse_flags "0x2")
          = ((⟨"h1", "h2", "80", "443"⟩ : ConnId), t, fl) := Option.some.inj hev
      have hfl : parse_flags "0x2" = fl := congrArg (fun q => q.2.2) h2
      rw [← hfl]
      decide)

theorem C6_malformed_skipped_witness :
    rowStep [] ["1", "2", "3"] = .ok []
      ∧ rowStep [] ["bad", "a", "b", "c", "d", "0x2"] = .ok [] :=
  ⟨C6_malformed_skipped [] ["1", "2", "3"] (Or.inl (by decide)),
    C6_malformed_skipped [] ["bad", "a", "b", "c", "d", "0x2"]
      (Or.inr ⟨"bad", "a", "b", "c", "d", "0x2", rfl, rfl⟩)⟩

theorem C8_export_complete_witness :
    (connKeys [(⟨"h1", "h2", "80", "443"⟩,
        (⟨qval "5", some (qval "7"), some Cause.RESET⟩ : ConnRecord))]).Nodup
      ∧ ((⟨"h1", "h2", "80", "443"⟩ : ConnId) ∈ connKeys [(⟨"h1", "h2", "80", "443"⟩,
          (⟨qval "5", some (qval "7"), some Cause.RESET⟩ : ConnRecord))]
          ↔ ∃ row ∈ [["5", "h1", "h2", "80", "443", "0x2"],
              ["7", "h1", "h2", "80", "443", "0x4"]],
            rowConnId row = some ⟨"h1", "h2", "80", "443"⟩)
      ∧ (exportConn [(⟨"h1", "h2", "80", "443"⟩,
          (⟨qval "5", some (qval "7"), some Cause.RESET⟩ : ConnRecord))]).length
        = [((⟨"h1", "h2", "80", "443"⟩ : ConnId),
            (⟨qval "5", some (qval "7"), some Cause.RESET⟩ : ConnRecord))].length
      ∧ (qval "5", qval "7" - qval "5")
        ∈ exportConn [(⟨"h1", "h2", "80", "443"⟩,
            (⟨qval "5", some (qval "7"), some Cause.RESET⟩ : ConnRecord))] := by
  have c := C8_export_complete
    [["5", "h1", "h2", "80", "443", "0x2"], ["7", "h1", "h2", "80", "443", "0x4"]]
    [(⟨"h1", "h2", "80", "443"⟩, ⟨qval "5", some (qval "7"), some Cause.RESET⟩)] rfl
  exact ⟨c.1, c.2.1 ⟨"h1", "h2", "80", "443"⟩, c.2.2.1,
    c.2.2.2.1 ⟨"h1", "h2", "80", "443"⟩ ⟨qval "5", some (qval "7"), some Cause.RESET⟩
      (qval "7") rfl rfl⟩

theorem C9_overlong_row_raises_witness :
    (processRows [] [["1", "2", "3", "4", "5", "6", "7"]] = .error PyError.valueError)
      ∧ process_tcp_fields [["1", "2", "3", "4", "5", "6", "7"]]
        = .error PyError.valueError := by
  have c := C9_overlong_row_raises [["1", "2", "3", "4", "5", "6", "7"]] (by decide)
  exact ⟨c.1 [], c.2⟩

/-! ## Decoder grammar: canonical decimal and hexadecimal encodings -/

/-- The set of flags whose bits are set in `n`, written with plain division
and remainder as an independent characterisation of the fixed assignment
SYN = 0x02, ACK = 0x10, FIN = 0x01, RST = 0x04. -/
def flagsOfNat (n : Nat) : FlagSet :=
  ⟨decide (n / 2 % 2 = 1), decide (n / 16 % 2 = 1),
    decide (n % 2 = 1), decide (n / 4 % 2 = 1)⟩

/-- The character of one decimal digit. -/
def decDigit (d : Nat) : Char := Char.ofNat (48 + d)

/-- The canonical decimal representation of `n` (no leading zero). -/
def decChars (n : Nat) : List Char :=
  if n = 0 then ['0'] else (Nat.digits 10 n).reverse.map decDigit

/-- The character of one lowercase hexadecimal digit. -/
def hexDigit (d : Nat) : Char :=
  if d < 10 then Char.ofNat (48 + d) else Char.ofNat (87 + d)

/-- The canonical lowercase hexadecimal representation of `n` (without the
`0x` prefix). -/
def hexChars (n : Nat) : List Char :=
  if n = 0 then ['0'] else (Nat.digits 16 n).reverse.map hexDigit

theorem hexVal_decDigit (d : Nat) (hd : d < 10) : hexVal (decDigit d) = some d := by
  interval_cases d <;> decide

theorem hexVal_hexDigit (d : Nat) (hd : d < 16) : hexVal (hexDigit d) = some d := by
  interval_cases d <;> decide

theorem digitsValCore_map (base : Nat) (digitOf : Nat → Char)
    (hdig : ∀ d, d < base → hexVal (digitOf d) = some d) :
    ∀ (ds : List Nat) (acc : Nat), (∀ d ∈ ds, d < base) →
      digitsValCore base acc (ds.map digitOf)
        = some (ds.foldl (fun a d => a * base + d) acc) := by
  intro ds
  induction ds with
  | nil => intro acc _; rfl
  | cons d ds ih =>
    intro acc hall
    have hd : d < base := hall d (List.mem_cons_self d ds)
    simp only [List.map_cons, digitsValCore, hdig d hd, List.foldl_cons]
    rw [if_pos hd]
    exact ih (acc * base + d) (fun x hx => hall x (List.mem_cons_of_mem d hx))

theorem foldr_ofDigits (b : Nat) (l : List Nat) :
    l.foldr (fun d a => a * b + d) 0 = Nat.ofDigits b l := by
  induction l with
  | nil => simp [Nat.ofDigits_nil]
  | cons d l ih =>
    simp only [List.foldr_cons, Nat.ofDigits_cons, ih, Nat.cast_id]
    ring

theorem foldl_rev_digits (b n : Nat) :
    ((Nat.digits b n).reverse).foldl (fun a d => a * b + d) 0 = n := by
  rw [List.foldl_reverse]
  rw [show ((Nat.digits b n).foldr (fun x y => y * b + x) 0)
      = ((Nat.digits b n).foldr (fun d a => a * b + d) 0) from rfl]
  rw [foldr_ofDigits b _, Nat.ofDigits_digits b n]

theorem digitsVal_ne_nil (base : Nat) (l : List Char) (h : l ≠ []) :
    digitsVal base l = digitsValCore base 0 l := by
  cases l with
  | nil => exact absurd rfl h
  | cons c cs => rfl

theorem digitsVal_map_digits (base n : Nat) (hb : 1 < base) (digitOf : Nat → Char)
    (hdig : ∀ d, d < base → hexVal (digitOf d) = some d) (hn : n ≠ 0) :
    digitsVal base ((Nat.digits base n).reverse.map digitOf) = some n := by
  have hne : (Nat.digits base n).reverse.map digitOf ≠ [] := by
    simp [Nat.digits_ne_nil_iff_ne_zero.mpr hn]
  rw [digitsVal_ne_nil base _ hne]
  rw [digitsValCore_map base digitOf hdig _ 0
    (fun d hd => Nat.digits_lt_base hb (List.mem_reverse.mp hd))]
  rw [foldl_rev_digits base n]

theorem pyIntUnsigned_eq_digitsVal (c : Char) (cs : List Char) (hc : c ≠ '0') :
    pyIntUnsigned (c :: cs) = digitsVal 10 (c :: cs) := by
  cases cs with
  | nil => rfl
  | cons p rest =>
    simp only [pyIntUnsigned]
    rw [if_neg hc]

theorem pyIntUnsigned_decChars (n : Nat) : pyIntUnsigned (decChars n) = some n := by
  by_cases hn : n = 0
  · subst hn; decide
  · have hne : Nat.digits 10 n ≠ [] := Nat.digits_ne_nil_iff_ne_zero.mpr hn
    have hrev_ne : (Nat.digits 10 n).reverse ≠ [] := by simpa using hne
    obtain ⟨d0, ds, hds⟩ := List.exists_cons_of_ne_nil hrev_ne
    have hd0mem : d0 ∈ Nat.digits 10 n := by
      rw [← List.mem_reverse, hds]
      exact List.mem_cons_self _ _
    have hd0lt : d0 < 10 := Nat.digits_lt_base (by norm_num) hd0mem
    have hd0 : d0 = (Nat.digits 10 n).getLast hne := by
      have h1 : (Nat.digits 10 n).reverse.head? = some d0 := by rw [hds]; rfl
      rw [List.head?_reverse, List.getLast?_eq_getLast _ hne] at h1
      exact (Option.some.inj h1).symm
    have hd0ne : d0 ≠ 0 := by
      rw [hd0]
      exact Nat.getLast_digit_ne_zero 10 hn
    have hcne : decDigit d0 ≠ '0' := by
      interval_cases d0
      · exact absurd rfl hd0ne
      all_goals decide
    have hchars : decChars n = decDigit d0 :: ds.map decDigit := by
      rw [decChars, if_neg hn, hds, List.map_cons]
    rw [hchars, pyIntUnsigned_eq_digitsVal _ _ hcne, ← List.map_cons, ← hds]
    exact digitsVal_map_digits 10 n (by norm_num) decDigit
      (fun d hd => hexVal_decDigit d hd) hn

theorem pyIntUnsigned_hexChars (n : Nat) :
    pyIntUnsigned ('0' :: 'x' :: hexChars n) = some n := by
  simp only [pyIntUnsigned]
  rw [if_pos trivial, if_pos (Or.inl trivial)]
  by_cases hn : n = 0
  · subst hn; decide
  · rw [hexChars, if_neg hn]
    exact digitsVal_map_digits 16 n (by norm_num) hexDigit
      (fun d hd => hexVal_hexDigit d hd) hn

theorem pyIntBase0_mk (cs : List Char) (h1 : cs.head? ≠ some '+')
    (h2 : cs.head? ≠ some '-') :
    pyIntBase0 (String.mk cs) = (pyIntUnsigned cs).map (fun n => (n : Int)) := by
  cases cs with
  | nil => rfl
  | cons c rest =>
    have hc1 : c ≠ '+' := by simpa using h1
    have hc2 : c ≠ '-' := by simpa using h2
    show (if c = '+' then (pyIntUnsigned rest).map (fun n => (n : Int))
      else if c = '-' then (pyIntUnsigned rest).map (fun n => -(n : Int))
      else (pyIntUnsigned (c :: rest)).map (fun n => (n : Int))) = _
    rw [if_neg hc1, if_neg hc2]

theorem decChars_head_not_sign (n : Nat) :
    (decChars n).head? ≠ some '+' ∧ (decChars n).head? ≠ some '-' := by
  by_cases hn : n = 0
  · subst hn; decide
  · rw [decChars, if_neg hn]
    cases hds : (Nat.digits 10 n).reverse with
    | nil => simp
    | cons d0 ds =>
      have hmem : d0 ∈ Nat.digits 10 n := by
        rw [← List.mem_reverse, hds]
        exact List.mem_cons_self _ _
      have hd0lt : d0 < 10 := Nat.digits_lt_base (by norm_num) hmem
      have hsign : decDigit d0 ≠ '+' ∧ decDigit d0 ≠ '-' := by
        interval_cases d0 <;> exact ⟨by decide, by decide⟩
      simp [hsign.1, hsign.2]

theorem parse_flags_of_nat (s : String) (n : Nat)
    (h : pyIntBase0 s = some ((n : Nat) : Int)) : parse_flags s = flagsOfNat n := by
  simp only [parse_flags, h, flagsOfNat]
  have h1 : intBit ((n : Nat) : Int) 1 = decide (n / 2 % 2 = 1) := by
    simp only [intBit]
    rw [decide_eq_decide, show ((2 : Int) ^ (1 : Nat)) = 2 by norm_num,
      show (((n : Nat) : Int).ediv 2).emod 2 = ((n / 2 % 2 : Nat) : Int) from rfl]
    norm_cast
  have h4 : intBit ((n : Nat) : Int) 4 = decide (n / 16 % 2 = 1) := by
    simp only [intBit]
    rw [decide_eq_decide, show ((2 : Int) ^ (4 : Nat)) = 16 by norm_num,
      show (((n : Nat) : Int).ediv 16).emod 2 = ((n / 16 % 2 : Nat) : Int) from rfl]
    norm_cast
  have h0 : intBit ((n : Nat) : Int) 0 = decide (n % 2 = 1) := by
    simp only [intBit]
    rw [decide_eq_decide, show ((2 : Int) ^ (0 : Nat)) = 1 by norm_num,
      show (((n : Nat) : Int).ediv 1).emod 2 = ((n / 1 % 2 : Nat) : Int) from rfl]
    norm_cast
    rw [Nat.div_one]
  have h2 : intBit ((n : Nat) : Int) 2 = decide (n / 4 % 2 = 1) := by
    simp only [intBit]
    rw [decide_eq_decide, show ((2 : Int) ^ (2 : Nat)) = 4 by norm_num,
      show (((n : Nat) : Int).ediv 4).emod 2 = ((n / 4 % 2 : Nat) : Int) from rfl]
    norm_cast
  rw [h1, h4, h0, h2]

/-- C5: the flag decoder is total (it is a function with no exception path;
unparseable input takes the empty-set branch).  A canonical decimal string or
a `0x`-prefixed hexadecimal string encoding `n` decodes to exactly the set of
flags whose bits are set in `n` under the fixed assignment SYN = 0x02,
ACK = 0x10, FIN = 0x01, RST = 0x04 — in particular "0x12" yields {SYN, ACK} —
and a string that fails integer conversion decodes to the empty set — in
particular "abc" yields the empty set. -/
theorem C5_flag_decoder_contract (n : Nat) (s : String) :
    (pyIntBase0 (String.mk (decChars n)) = some ((n : Nat) : Int)
      ∧ parse_flags (String.mk (decChars n)) = flagsOfNat n)
    ∧ (pyIntBase0 (String.mk ('0' :: 'x' :: hexChars n)) = some ((n : Nat) : Int)
      ∧ parse_flags (String.mk ('0' :: 'x' :: hexChars n)) = flagsOfNat n)
    ∧ (pyIntBase0 s = none → parse_flags s = ⟨false, false, false, false⟩)
    ∧ parse_flags "0x12" = ⟨true, true, false, false⟩
    ∧ parse_flags "abc" = ⟨false, false, false, false⟩ := by
  have hdec : pyIntBase0 (String.mk (decChars n)) = some ((n : Nat) : Int) := by
    rw [pyIntBase0_mk (decChars n) (decChars_head_not_sign n).1
      (decChars_head_not_sign n).2, pyIntUnsigned_decChars n]
    rfl
  have hhex : pyIntBase0 (String.mk ('0' :: 'x' :: hexChars n))
      = some ((n : Nat) : Int) := by
    rw [pyIntBase0_mk _ (by simp) (by simp), pyIntUnsigned_hexChars n]
    rfl
  refine ⟨⟨hdec, parse_flags_of_nat _ n hdec⟩, ⟨hhex, parse_flags_of_nat _ n hhex⟩,
    ?_, ?_, ?_⟩
  · intro hnone
    simp [parse_flags, hnone]
  · decide
  · decide

/-- Witness for C5 at `n = 18` (= 0x12) and `s = "abc"`: the canonical
decimal and hexadecimal encodings of 18 decode to {SYN, ACK}, and the
unparseable string decodes to the empty set. -/
theorem C5_flag_decoder_contract_witness :
    parse_flags (String.mk (decChars 18)) = flagsOfNat 18
      ∧ parse_flags (String.mk ('0' :: 'x' :: hexChars 18)) = flagsOfNat 18
      ∧ parse_flags "abc" = ⟨false, false, false, false⟩ :=
  ⟨(C5_flag_decoder_contract 18 "abc").1.2,
    (C5_flag_decoder_contract 18 "abc").2.1.2,
    ((C5_flag_decoder_contract 18 "abc").2.2.1 (by decide))⟩

/-- C10: the decoder's accepted grammar is Python's base-auto-detected
integer literal, not plain decimal-or-0x-hex: the binary literal "0b10010"
decodes to 18 and yields {SYN, ACK}, while the leading-zero decimal "010"
fails integer conversion and yields the empty set. -/
theorem C10_auto_base_grammar :
    pyIntBase0 "0b10010" = some 18
      ∧ parse_flags "0b10010" = ⟨true, true, false, false⟩
      ∧ pyIntBase0 "010" = none
      ∧ parse_flags "010" = ⟨false, false, false, false⟩ := by
  decide
